import Mathlib

/-!
Verification of the airport control-tower simulator (Go, `practica4_ssoo_dist`).

The embedding below translates the client program (`src/unnamed/part_000`):
the aircraft record `Avion`, the priority queue `AvionHeap` driven by the
algorithms of Go's `container/heap` (the repository supplies `Len`, `Less`,
`Swap`, `Push`, `Pop` at lines 40-56 and calls `heap.Init`, `heap.Push`,
`heap.Pop`), the state machine `actualizarEstado` (lines 138-154) with
`reordenarCola` (157-165) and `calcularPrioridad` (168-196), the dispatcher
loop body `procesarCola` (199-224) with `esCategoriaValida` (240-250), the
message reader `leerMensajes` (95-118) with `descripcionEstado` (121-135),
the runway channel `pistasDisponibles` (line 24) used by `usarPista`
(253-259).

A Go slice `[]Avion` is represented as a length together with an index
function; loops of `container/heap` are translated with an explicit fuel
argument that equals the exact bound the loop's termination argument gives
(`n - i` for `down`, `j` for `up`, the queue length for the drain loop of
`reordenarCola`), so every definition is structurally recursive and
kernel-computable.
-/

/-- Aircraft record, lines 30-35 of the source: id, category ("A"/"B"/"C"),
passenger count, mutable queue priority (all Go `int`). -/
structure Avion where
  id : Int
  categoria : String
  numPasajeros : Int
  prioridad : Int
deriving DecidableEq

/-- The zero value of `Avion` (Go zero value of the struct). -/
def avionCero : Avion := ⟨0, "", 0, 0⟩

/-- A Go slice `[]Avion`: its length and its contents as an index function
(indices `≥ size` are junk that the algorithms never read). -/
structure AvionHeap where
  size : Nat
  get : Nat → Avion

/-- The zero value `AvionHeap` (`var nuevaCola AvionHeap`): the empty slice. -/
def colaVacia : AvionHeap := ⟨0, fun _ => avionCero⟩

/-- `h.Swap(i, j)` (line 42): exchange positions `i` and `j`. -/
def swapF (f : Nat → Avion) (i j : Nat) : Nat → Avion :=
  fun k => if k = i then f j else if k = j then f i else f k

/-- Writing position `i` of the slice (used by the append of `Push`). -/
def fupd (f : Nat → Avion) (i : Nat) (x : Avion) : Nat → Avion :=
  fun k => if k = i then x else f k

/-- The child of `i` selected by `container/heap`'s `down`: the left child
`2*i+1`, unless the right child `2*i+2` exists and `Less(j2, j1)` holds,
i.e. (`Less` at line 41 compares `prioridad` with `>`) the right child has
strictly greater priority. -/
def childSel (f : Nat → Avion) (i n : Nat) : Nat :=
  if 2*i+2 < n ∧ (f (2*i+2)).prioridad > (f (2*i+1)).prioridad then 2*i+2
  else 2*i+1

/-- The loop of `container/heap`'s `down(h, i, n)`, with fuel: while the left
child `2*i+1` is in range, pick the `Less`-least child `j` (= greatest
priority, since `Less` is inverted) and, if `Less(j, i)`, swap and continue
from `j`.  Fuel `n - i` is exact: `i` strictly increases and the loop stops
once `2*i+1 ≥ n`, hence also when `i ≥ n`, so the branch below that merely
returns `f` at fuel `0` is never reached with `i < n`. -/
def downAux : Nat → (Nat → Avion) → Nat → Nat → (Nat → Avion)
  | 0, f, _, _ => f
  | fuel+1, f, i, n =>
    if 2*i+1 < n then
      if (f (childSel f i n)).prioridad > (f i).prioridad then
        downAux fuel (swapF f i (childSel f i n)) (childSel f i n) n
      else f
    else f

/-- `container/heap`'s `down(h, i, n)`. -/
def down (f : Nat → Avion) (i n : Nat) : Nat → Avion :=
  downAux (n - i) f i n

/-- The loop of `container/heap`'s `up(h, j)`, with fuel: let `i := (j-1)/2`
be the parent; stop when `i = j` (only at the root, where Go's
`(0-1)/2 = 0` equals truncated `Nat` subtraction) or `¬ Less(j, i)`;
otherwise swap and continue from `i`.  Fuel `j` is exact: `j` strictly
decreases and the loop always stops at `j = 0`. -/
def upAux : Nat → (Nat → Avion) → Nat → (Nat → Avion)
  | 0, f, _ => f
  | fuel+1, f, j =>
    if (j-1)/2 ≠ j ∧ (f j).prioridad > (f ((j-1)/2)).prioridad then
      upAux fuel (swapF f ((j-1)/2) j) ((j-1)/2)
    else f

/-- `container/heap`'s `up(h, j)`. -/
def up (f : Nat → Avion) (j : Nat) : Nat → Avion :=
  upAux j f j

/-- `heap.Push(h, x)`: append `x` (the repository's `Push`, lines 45-47)
then `up(h, h.Len()-1)`. -/
def heapPush (h : AvionHeap) (x : Avion) : AvionHeap :=
  ⟨h.size + 1, up (fupd h.get h.size x) h.size⟩

/-- `heap.Pop(h)`: with `n := h.Len()-1`, do `Swap(0, n)`, `down(0, n)`, and
return the removed last element (the repository's `Pop`, lines 50-56), which
is the old root.  Callers always guard with `Len() > 0`; the empty case is
`none`. -/
def heapPop (h : AvionHeap) : Option (Avion × AvionHeap) :=
  if h.size = 0 then none
  else some (h.get 0,
    ⟨h.size - 1, down (swapF h.get 0 (h.size - 1)) 0 (h.size - 1)⟩)

/-- `calcularPrioridad` (lines 168-196) as a function of the global
`estadoActual` it reads: in states 1/2/3 the matching category A/B/C gets 1,
in states 4/5/6 it gets 2, everything else gets 0. -/
def calcularPrioridad (estadoActual : Int) (avion : Avion) : Int :=
  if estadoActual = 1 then (if avion.categoria = "A" then 1 else 0)
  else if estadoActual = 2 then (if avion.categoria = "B" then 1 else 0)
  else if estadoActual = 3 then (if avion.categoria = "C" then 1 else 0)
  else if estadoActual = 4 then (if avion.categoria = "A" then 2 else 0)
  else if estadoActual = 5 then (if avion.categoria = "B" then 2 else 0)
  else if estadoActual = 6 then (if avion.categoria = "C" then 2 else 0)
  else 0

/-- `esCategoriaValida` (lines 240-250) as a function of `estadoActual`:
in states 1/2/3 only the matching category is valid, otherwise every
category is. -/
def esCategoriaValida (estadoActual : Int) (avion : Avion) : Bool :=
  if estadoActual = 1 then avion.categoria = "A"
  else if estadoActual = 2 then avion.categoria = "B"
  else if estadoActual = 3 then avion.categoria = "C"
  else true

/-- The drain loop of `reordenarCola` (lines 157-165), with fuel equal to
the queue length (exact: each `heap.Pop` removes one element): pop every
aircraft, recompute its priority, push it onto the fresh `nuevaCola`. -/
def reordenarColaAux : Nat → Int → AvionHeap → AvionHeap → AvionHeap
  | 0, _, _, nueva => nueva
  | fuel+1, estado, cola, nueva =>
    match heapPop cola with
    | none => nueva
    | some (avion, cola') =>
        reordenarColaAux fuel estado cola'
          (heapPush nueva { avion with prioridad := calcularPrioridad estado avion })

/-- `reordenarCola` (lines 157-165): rebuild the queue with recomputed
priorities, starting from the zero-value `nuevaCola`. -/
def reordenarCola (estado : Int) (cola : AvionHeap) : AvionHeap :=
  reordenarColaAux cola.size estado cola colaVacia

/-- The mutable globals guarded by `mu` (lines 17-27): `estadoActual`,
`colaAviones`, `procesar`, `detenerProceso`. -/
structure Sistema where
  estadoActual : Int
  colaAviones : AvionHeap
  procesar : Bool
  detenerProceso : Bool

/-- `actualizarEstado` (lines 138-154), returning the updated globals and
the lines printed: codes 7/8 keep everything and report retention; any
other code is stored verbatim, enables processing iff it is in 1..6,
clears `detenerProceso`, and reorders the queue when processing is
enabled. -/
def actualizarEstado (s : Sistema) (estado : Int) : Sistema × List String :=
  if estado = 7 ∨ estado = 8 then
    (s, ["Estado 7 u 8 recibido, se mantiene el estado actual: " ++ toString s.estadoActual])
  else
    let habilitado : Bool := decide (1 ≤ estado ∧ estado ≤ 6)
    let s1 : Sistema :=
      { s with estadoActual := estado, procesar := habilitado, detenerProceso := false }
    if habilitado then
      ({ s1 with colaAviones := reordenarCola estado s.colaAviones },
       ["Estado actualizado a: " ++ toString estado ++ " "])
    else
      (s1, ["Estado actualizado a: " ++ toString estado ++ " "])

/-- The description table of `descripcionEstado` (lines 121-135). -/
def descripciones (estado : Int) : Option String :=
  if estado = 0 then some ("Aeropuerto inactivo")
  else if estado = 1 then some ("Solo categoría A")
  else if estado = 2 then some ("Solo categoría B")
  else if estado = 3 then some ("Solo categoría C")
  else if estado = 4 then some ("Prioridad categoría A")
  else if estado = 5 then some ("Prioridad categoría B")
  else if estado = 6 then some ("Prioridad categoría C")
  else if estado = 9 then some ("Aeropuerto cerrado temporalmente")
  else none

/-- `descripcionEstado` (lines 121-135): print `"(desc)"` when the table
has an entry, nothing otherwise. -/
def descripcionEstado (estado : Int) : List String :=
  match descripciones estado with
  | some desc => ["(" ++ desc ++ ")"]
  | none => []

/-- `unicode.IsSpace` restricted to the Latin-1 range that
`strings.TrimSpace` tests first: `'\t' '\n' '\v' '\f' '\r' ' '` and
`U+0085`, `U+00A0`. -/
def esEspacio (c : Char) : Bool :=
  c = ' ' ∨ c = '\t' ∨ c = '\n' ∨ c.toNat = 11 ∨ c.toNat = 12 ∨ c = '\r' ∨
    c.toNat = 133 ∨ c.toNat = 160

/-- `strings.TrimSpace` (used at line 108): strip leading and trailing
whitespace. -/
def trimSpace (s : String) : String :=
  ⟨(((s.data.dropWhile esEspacio).reverse.dropWhile esEspacio).reverse)⟩

/-- Digit-run accumulator of `strconv.ParseInt`: `none` as soon as a
non-digit appears. -/
def leerDigitos : List Char → Nat → Option Nat
  | [], acc => some acc
  | c :: rest, acc =>
      if c.isDigit then leerDigitos rest (acc * 10 + (c.toNat - 48))
      else none

/-- `strconv.Atoi` (line 110): optional sign, at least one digit, base 10,
error (`none`) on any other character, on the empty string, and when the
value overflows a 64-bit `int`. -/
def atoi (s : String) : Option Int :=
  match s.data with
  | [] => none
  | c :: rest =>
    if c = '+' then
      match rest with
      | [] => none
      | _ => (leerDigitos rest 0).bind
          (fun n => if n ≤ 9223372036854775807 then some ((n : Int)) else none)
    else if c = '-' then
      match rest with
      | [] => none
      | _ => (leerDigitos rest 0).bind
          (fun n => if n ≤ 9223372036854775808 then some (-(n : Int)) else none)
    else (leerDigitos (c :: rest) 0).bind
        (fun n => if n ≤ 9223372036854775807 then some ((n : Int)) else none)

/-- The per-message body of `leerMensajes` (lines 107-116): trim the raw
bytes; if the result parses as an integer, run `actualizarEstado` and then
`descripcionEstado`; otherwise print the trimmed text. -/
def leerLinea (s : Sistema) (raw : String) : Sistema × List String :=
  let msg := trimSpace raw
  match atoi msg with
  | some estado =>
      let r := actualizarEstado s estado
      (r.1, r.2 ++ descripcionEstado estado)
  | none => (s, [msg])

/-- What one iteration of `procesarCola` (lines 200-223) did. -/
inductive Evento where
  | espera : Evento
  | agotado : Avion → Evento
  | despachado : Avion → Evento
deriving DecidableEq

/-- One iteration of the dispatcher loop `procesarCola` (lines 200-223):
sleep if `detenerProceso`, or if `¬procesar` or the queue is empty;
otherwise pop the root; in an exclusive state 1..3 a category mismatch is
pushed back and sets `detenerProceso`; otherwise the aircraft is dispatched
to `usarPista` and leaves the queue. -/
def pasoDispatcher (s : Sistema) : Sistema × Evento :=
  if s.detenerProceso = true then (s, Evento.espera)
  else if s.procesar = false ∨ s.colaAviones.size = 0 then (s, Evento.espera)
  else
    match heapPop s.colaAviones with
    | none => (s, Evento.espera)
    | some (avion, cola') =>
      if 1 ≤ s.estadoActual ∧ s.estadoActual ≤ 3 ∧
          esCategoriaValida s.estadoActual avion = false then
        ({ s with colaAviones := heapPush cola' avion, detenerProceso := true },
         Evento.agotado avion)
      else
        ({ s with colaAviones := cola' }, Evento.despachado avion)

/-- The aircraft popped (`heap.Pop` at line 213) over `n` dispatcher
iterations: both dispatched aircraft and the single requeued aircraft of an
exhaustion detection appear; sleeps pop nothing. -/
def trazaPops : Nat → Sistema → List Avion
  | 0, _ => []
  | n+1, s =>
    match pasoDispatcher s with
    | (s', Evento.espera) => trazaPops n s'
    | (s', Evento.agotado a) => a :: trazaPops n s'
    | (s', Evento.despachado a) => a :: trazaPops n s'

/-- The simulated occupancy duration of `usarPista` (line 256), in seconds,
as a function of the pseudo-random draw `r`: `rand.Intn(4)` yields a value
in `[0, 4)`. -/
def usarPistaDuracion (r : Nat) : Nat := r % 4

/-- The runway channel `pistasDisponibles` (line 24, capacity 3): tokens
still buffered and slots currently held. -/
structure PistaPool where
  disponibles : Nat
  enUso : Nat

/-- The two operations `usarPista` (lines 253-259) performs on the channel:
`<-pistasDisponibles` blocks unless a token is buffered and takes it;
`pistasDisponibles <- struct{}{}` is executed only by a holder and returns
its token. -/
inductive PasoPista : PistaPool → PistaPool → Prop where
  | adquirir (p : PistaPool) (h : 0 < p.disponibles) :
      PasoPista p ⟨p.disponibles - 1, p.enUso + 1⟩
  | liberar (p : PistaPool) (h : 0 < p.enUso) :
      PasoPista p ⟨p.disponibles + 1, p.enUso - 1⟩

/-- `init` (lines 61-63) buffers the 3 tokens; nothing is held. -/
def pistaInicial : PistaPool := ⟨3, 0⟩

/-- The pool states the program can reach from `init`. -/
inductive PistaAlcanzable : PistaPool → Prop where
  | inicial : PistaAlcanzable pistaInicial
  | paso {p q : PistaPool} : PistaAlcanzable p → PasoPista p q → PistaAlcanzable q

/-- The contents of the slice as a multiset. -/
def elemsF (f : Nat → Avion) (n : Nat) : Multiset Avion :=
  (((List.range n).map f : List Avion) : Multiset Avion)

/-- The contents of the queue as a multiset. -/
def elems (h : AvionHeap) : Multiset Avion :=
  elemsF h.get h.size

/-- The `container/heap` invariant for the repository's `Less` (line 41):
every non-root position has priority at most its parent's. -/
def IsHeapF (f : Nat → Avion) (n : Nat) : Prop :=
  ∀ c, c < n → 0 < c → (f c).prioridad ≤ (f ((c-1)/2)).prioridad

/-- The heap invariant of an `AvionHeap`. -/
def IsHeap (h : AvionHeap) : Prop :=
  IsHeapF h.get h.size

instance (f : Nat → Avion) (n : Nat) : Decidable (IsHeapF f n) :=
  Nat.decidableBallLT n (fun c _ => 0 < c → (f c).prioridad ≤ (f ((c-1)/2)).prioridad)

instance (h : AvionHeap) : Decidable (IsHeap h) :=
  inferInstanceAs (Decidable (IsHeapF h.get h.size))

/-- The category an exclusive state requires / the spec's per-state matching
category for states 1..6 (the table of spec §4.2). -/
def categoriaObjetivo (estado : Int) : String :=
  if estado = 1 ∨ estado = 4 then "A"
  else if estado = 2 ∨ estado = 5 then "B"
  else if estado = 3 ∨ estado = 6 then "C"
  else ""

/-! ### Index arithmetic of the implicit binary tree -/

theorem childSel_lt (f : Nat → Avion) {i n : Nat} (h : 2*i+1 < n) :
    childSel f i n < n := by
  unfold childSel; split <;> omega

theorem lt_childSel (f : Nat → Avion) (i n : Nat) : i < childSel f i n := by
  unfold childSel; split <;> omega

theorem childSel_parent (f : Nat → Avion) (i n : Nat) :
    (childSel f i n - 1) / 2 = i := by
  unfold childSel; split <;> omega

/-- The selected child is an actual child: it is `2*i+1` or `2*i+2`. -/
theorem childSel_cases (f : Nat → Avion) (i n : Nat) :
    childSel f i n = 2*i+1 ∨ childSel f i n = 2*i+2 := by
  unfold childSel; split <;> omega

/-- The selected child has the greatest priority among the in-range
children of `i`. -/
theorem childSel_max (f : Nat → Avion) {i n c : Nat} (hc : c < n)
    (hp : (c - 1) / 2 = i) (hc0 : 0 < c) :
    (f c).prioridad ≤ (f (childSel f i n)).prioridad := by
  have hcc : c = 2*i+1 ∨ c = 2*i+2 := by omega
  unfold childSel
  split
  · next hcond =>
    obtain ⟨h1, h2⟩ := hcond
    rcases hcc with rfl | rfl <;> omega
  · next hcond =>
    rcases hcc with rfl | rfl
    · omega
    · rcases not_and_or.mp hcond with h2 | h2
      · omega
      · omega

/-! ### The heap algorithms only permute the slice contents -/

theorem swapF_eq (f : Nat → Avion) (i j k : Nat) :
    swapF f i j k = f (Equiv.swap i j k) := by
  simp only [swapF, Equiv.swap_apply_def]
  split_ifs <;> rfl

theorem range_swap {i j n : Nat} (hi : i < n) (hj : j < n) :
    (((List.range n).map (Equiv.swap i j) : List Nat) : Multiset Nat) =
      ((List.range n : List Nat) : Multiset Nat) := by
  have hnd1 : ((List.range n).map (Equiv.swap i j)).Nodup :=
    (List.nodup_range n).map (Equiv.injective _)
  rw [Multiset.Nodup.ext (by exact hnd1) (by exact List.nodup_range n)]
  intro a
  simp only [Multiset.mem_coe, List.mem_map, List.mem_range]
  constructor
  · rintro ⟨b, hb, rfl⟩
    rw [Equiv.swap_apply_def]; split_ifs <;> omega
  · intro ha
    refine ⟨Equiv.swap i j a, ?_, Equiv.swap_apply_self i j a⟩
    rw [Equiv.swap_apply_def]; split_ifs <;> omega

theorem elemsF_swapF (f : Nat → Avion) {i j n : Nat} (hi : i < n) (hj : j < n) :
    elemsF (swapF f i j) n = elemsF f n := by
  unfold elemsF
  have h1 : (List.range n).map (swapF f i j) =
      ((List.range n).map (Equiv.swap i j)).map f := by
    rw [List.map_map]
    exact List.map_congr_left (fun a _ => swapF_eq f i j a)
  calc (((List.range n).map (swapF f i j) : List Avion) : Multiset Avion)
      = Multiset.map f (((List.range n).map (Equiv.swap i j) : List Nat) : Multiset Nat) := by
        rw [h1, Multiset.map_coe]
    _ = Multiset.map f ((List.range n : List Nat) : Multiset Nat) := by
        rw [range_swap hi hj]
    _ = (((List.range n).map f : List Avion) : Multiset Avion) := by
        rw [Multiset.map_coe]

theorem downAux_elemsF (fuel : Nat) :
    ∀ f i n, elemsF (downAux fuel f i n) n = elemsF f n := by
  induction fuel with
  | zero => intro f i n; rfl
  | succ fuel ih =>
    intro f i n
    unfold downAux
    split
    · next h1 =>
      split
      · next h2 =>
        rw [ih]
        exact elemsF_swapF f (by omega) (childSel_lt f h1)
      · rfl
    · rfl

theorem upAux_elemsF (fuel : Nat) :
    ∀ f j n, j < n → elemsF (upAux fuel f j) n = elemsF f n := by
  induction fuel with
  | zero => intro f j n _; rfl
  | succ fuel ih =>
    intro f j n hj
    unfold upAux
    split
    · next h1 =>
      have hp : (j-1)/2 < n := by omega
      rw [ih _ _ _ hp]
      exact elemsF_swapF f hp hj
    · rfl

theorem elemsF_fupd (f : Nat → Avion) (n : Nat) (x : Avion) :
    elemsF (fupd f n x) (n+1) = x ::ₘ elemsF f n := by
  unfold elemsF
  rw [List.range_succ, List.map_append]
  have h1 : (List.range n).map (fupd f n x) = (List.range n).map f :=
    List.map_congr_left (fun a ha => by
      have hlt : a < n := List.mem_range.mp ha
      simp only [fupd]
      rw [if_neg (by omega)])
  have h2 : [n].map (fupd f n x) = [x] := by simp [fupd]
  rw [h1, h2, Multiset.cons_coe, Multiset.coe_eq_coe]
  exact List.perm_append_singleton _ _

theorem heapPush_elems (h : AvionHeap) (x : Avion) :
    elems (heapPush h x) = x ::ₘ elems h := by
  show elemsF (up (fupd h.get h.size x) h.size) (h.size + 1) = x ::ₘ elemsF h.get h.size
  unfold up
  rw [upAux_elemsF _ _ _ _ (Nat.lt_succ_self h.size), elemsF_fupd]

theorem heapPush_size (h : AvionHeap) (x : Avion) :
    (heapPush h x).size = h.size + 1 := rfl

theorem heapPop_none {h : AvionHeap} : heapPop h = none ↔ h.size = 0 := by
  unfold heapPop; split <;> simp_all

theorem heapPop_some {h : AvionHeap} {a : Avion} {h' : AvionHeap}
    (hp : heapPop h = some (a, h')) :
    h.size ≠ 0 ∧ a = h.get 0 ∧
      h' = ⟨h.size - 1, down (swapF h.get 0 (h.size - 1)) 0 (h.size - 1)⟩ := by
  unfold heapPop at hp
  split at hp
  · exact absurd hp (by simp)
  · next hne =>
    simp only [Option.some.injEq, Prod.mk.injEq] at hp
    exact ⟨hne, hp.1.symm, hp.2.symm⟩

theorem heapPop_size {h : AvionHeap} {a : Avion} {h' : AvionHeap}
    (hp : heapPop h = some (a, h')) : h'.size = h.size - 1 := by
  obtain ⟨-, -, rfl⟩ := heapPop_some hp; rfl

theorem heapPop_elems {h : AvionHeap} {a : Avion} {h' : AvionHeap}
    (hp : heapPop h = some (a, h')) :
    elems h = a ::ₘ elems h' := by
  obtain ⟨hne, rfl, rfl⟩ := heapPop_some hp
  show elemsF h.get h.size =
    h.get 0 ::ₘ elemsF (down (swapF h.get 0 (h.size - 1)) 0 (h.size - 1)) (h.size - 1)
  unfold down
  rw [downAux_elemsF]
  obtain ⟨m, hm⟩ : ∃ m, h.size = m + 1 := ⟨h.size - 1, by omega⟩
  rw [hm]
  simp only [Nat.add_sub_cancel]
  have hstep : elemsF h.get (m+1) = elemsF (swapF h.get 0 m) (m+1) :=
    (elemsF_swapF h.get (by omega) (by omega)).symm
  rw [hstep]
  unfold elemsF
  rw [List.range_succ, List.map_append]
  have hs : swapF h.get 0 m m = h.get 0 := by
    unfold swapF
    split
    · next he => rw [he]
    · rw [if_pos rfl]
  simp only [List.map_cons, List.map_nil, hs]
  rw [Multiset.cons_coe, Multiset.coe_eq_coe]
  exact List.perm_append_singleton _ _

theorem mem_elems {h : AvionHeap} {a : Avion} :
    a ∈ elems h ↔ ∃ i, i < h.size ∧ h.get i = a := by
  unfold elems elemsF
  simp only [Multiset.mem_coe, List.mem_map, List.mem_range]

/-! ### Pointwise evaluation of `swapF` -/

theorem swapF_left (f : Nat → Avion) (i j : Nat) : swapF f i j i = f j := by
  unfold swapF; rw [if_pos rfl]

theorem swapF_right (f : Nat → Avion) (i j : Nat) : swapF f i j j = f i := by
  unfold swapF
  split
  · next h => rw [h]
  · rw [if_pos rfl]

theorem swapF_other (f : Nat → Avion) {i j k : Nat} (h1 : k ≠ i) (h2 : k ≠ j) :
    swapF f i j k = f k := by
  unfold swapF; rw [if_neg h1, if_neg h2]

/-! ### `down` and `up` restore the heap invariant -/

/-- Sift-down intermediate state: the parent bound may fail only on the
edges out of `i`, and when `i` is not the root its children are still
bounded by `i`'s parent. -/
def HeapExceptDown (f : Nat → Avion) (n i : Nat) : Prop :=
  (∀ c, c < n → 0 < c → (c-1)/2 ≠ i → (f c).prioridad ≤ (f ((c-1)/2)).prioridad)
  ∧ (0 < i → ∀ c, c < n → (c-1)/2 = i → (f c).prioridad ≤ (f ((i-1)/2)).prioridad)

/-- Sift-up intermediate state: the parent bound may fail only on the edge
into `j`, and the children of `j` are still bounded by `j`'s parent. -/
def HeapExceptUp (f : Nat → Avion) (n j : Nat) : Prop :=
  (∀ c, c < n → 0 < c → c ≠ j → (f c).prioridad ≤ (f ((c-1)/2)).prioridad)
  ∧ (0 < j → ∀ c, c < n → (c-1)/2 = j → (f c).prioridad ≤ (f ((j-1)/2)).prioridad)

theorem downAux_isHeap (fuel : Nat) :
    ∀ f i n, n - i ≤ fuel → HeapExceptDown f n i →
      IsHeapF (downAux fuel f i n) n := by
  induction fuel with
  | zero =>
    intro f i n hfuel hinv c hc hc0
    exact hinv.1 c hc hc0 (by omega)
  | succ fuel ih =>
    intro f i n hfuel hinv
    unfold downAux
    split
    · next h1 =>
      split
      · next h2 =>
        have hij : i < childSel f i n := lt_childSel f i n
        have hjn : childSel f i n < n := childSel_lt f h1
        have hpj : (childSel f i n - 1) / 2 = i := childSel_parent f i n
        apply ih _ _ _ (by omega)
        constructor
        · intro c hc hc0 hcj
          by_cases hci : c = i
          · subst hci
            have hqi : (c-1)/2 < c := by omega
            rw [swapF_left, swapF_other f (by omega) (by omega)]
            exact hinv.2 hc0 _ hjn hpj
          · by_cases hcj2 : c = childSel f i n
            · subst hcj2
              rw [hpj, swapF_right, swapF_left]
              omega
            · rw [swapF_other f hci hcj2]
              by_cases hpi : (c-1)/2 = i
              · rw [hpi, swapF_left]
                exact childSel_max f hc hpi hc0
              · rw [swapF_other f hpi hcj]
                exact hinv.1 c hc hc0 hpi
        · intro hj0 c hc hpc
          have hc0 : 0 < c := by omega
          have hcbig : childSel f i n < c := by omega
          rw [hpj, swapF_left, swapF_other f (by omega) (by omega)]
          have h3 := hinv.1 c hc hc0 (by omega)
          rw [hpc] at h3
          exact h3
      · next h2 =>
        intro c hc hc0
        by_cases hci : (c-1)/2 = i
        · have hmax := childSel_max f hc hci hc0
          rw [hci]
          omega
        · exact hinv.1 c hc hc0 hci
    · next h1 =>
      intro c hc hc0
      by_cases hci : (c-1)/2 = i
      · exact absurd hc (by omega)
      · exact hinv.1 c hc hc0 hci

theorem upAux_isHeap (fuel : Nat) :
    ∀ f j n, j ≤ fuel → j < n → HeapExceptUp f n j →
      IsHeapF (upAux fuel f j) n := by
  induction fuel with
  | zero =>
    intro f j n hfuel hjn hinv c hc hc0
    exact hinv.1 c hc hc0 (by omega)
  | succ fuel ih =>
    intro f j n hfuel hjn hinv
    unfold upAux
    split
    · next hcond =>
      obtain ⟨hne, hlt⟩ := hcond
      have hj0 : 0 < j := by omega
      have hij : (j-1)/2 < j := by omega
      apply ih _ _ _ (by omega) (by omega)
      constructor
      · intro c hc hc0 hci
        by_cases hcj : c = j
        · subst hcj
          rw [swapF_right, swapF_left]
          omega
        · rw [swapF_other f hci hcj]
          by_cases hpi : (c-1)/2 = (j-1)/2
          · rw [hpi, swapF_left]
            have h3 := hinv.1 c hc hc0 hcj
            rw [hpi] at h3
            omega
          · by_cases hpj2 : (c-1)/2 = j
            · rw [hpj2, swapF_right]
              exact hinv.2 hj0 c hc hpj2
            · rw [swapF_other f hpi hpj2]
              exact hinv.1 c hc hc0 hcj
      · intro hi0 c hc hpc
        have hq1 : ((j-1)/2 - 1)/2 ≠ (j-1)/2 := by omega
        have hq2 : ((j-1)/2 - 1)/2 ≠ j := by omega
        have hstep : (f ((j-1)/2)).prioridad ≤ (f (((j-1)/2 - 1)/2)).prioridad :=
          hinv.1 ((j-1)/2) (by omega) hi0 (by omega)
        by_cases hcj : c = j
        · subst hcj
          rw [swapF_right, swapF_other f hq1 hq2]
          exact hstep
        · have hc0 : 0 < c := by omega
          have hcne : c ≠ (j-1)/2 := by omega
          rw [swapF_other f hcne hcj, swapF_other f hq1 hq2]
          have h3 := hinv.1 c hc hc0 hcj
          rw [hpc] at h3
          omega
    · next hcond =>
      intro c hc hc0
      by_cases hcj : c = j
      · subst hcj
        rcases not_and_or.mp hcond with hA | hB
        · omega
        · omega
      · exact hinv.1 c hc hc0 hcj

/-- In a heap, the root has the greatest priority. -/
theorem isHeapF_le_root {f : Nat → Avion} {n : Nat} (h : IsHeapF f n) :
    ∀ i, i < n → (f i).prioridad ≤ (f 0).prioridad := by
  intro i
  induction i using Nat.strong_induction_on with
  | _ i ih =>
    intro hi
    rcases Nat.eq_zero_or_pos i with rfl | hpos
    · exact le_refl _
    · exact le_trans (h i hi hpos) (ih ((i-1)/2) (by omega) (by omega))

theorem heapPush_isHeap {h : AvionHeap} (hh : IsHeap h) (x : Avion) :
    IsHeap (heapPush h x) := by
  show IsHeapF (up (fupd h.get h.size x) h.size) (h.size + 1)
  unfold up
  apply upAux_isHeap _ _ _ _ (le_refl _) (Nat.lt_succ_self _)
  constructor
  · intro c hc hc0 hcj
    have hcs : c < h.size := by omega
    show (fupd h.get h.size x c).prioridad ≤ (fupd h.get h.size x ((c-1)/2)).prioridad
    unfold fupd
    rw [if_neg (by omega), if_neg (by omega)]
    exact hh c hcs hc0
  · intro hj0 c hc hpc
    exact absurd hc (by omega)

theorem heapPop_isHeap {h : AvionHeap} {a : Avion} {h' : AvionHeap}
    (hp : heapPop h = some (a, h')) (hh : IsHeap h) : IsHeap h' := by
  obtain ⟨hne, -, rfl⟩ := heapPop_some hp
  show IsHeapF (down (swapF h.get 0 (h.size - 1)) 0 (h.size - 1)) (h.size - 1)
  unfold down
  apply downAux_isHeap _ _ _ _ (le_refl _)
  constructor
  · intro c hc hc0 hcp
    have h4 : (c-1)/2 ≠ h.size - 1 := by omega
    rw [swapF_other _ (by omega) (by omega), swapF_other _ hcp h4]
    exact hh c (by omega) hc0
  · intro h0
    exact absurd h0 (lt_irrefl 0)

/-- The aircraft `heap.Pop` returns bounds the priority of everything that
was in the queue. -/
theorem heapPop_max {h : AvionHeap} {a : Avion} {h' : AvionHeap}
    (hp : heapPop h = some (a, h')) (hh : IsHeap h) :
    ∀ b, b ∈ elems h → b.prioridad ≤ a.prioridad := by
  intro b hb
  obtain ⟨i, hi, rfl⟩ := mem_elems.mp hb
  obtain ⟨-, rfl, -⟩ := heapPop_some hp
  exact isHeapF_le_root hh i hi

theorem colaVacia_isHeap : IsHeap colaVacia := by decide

/-! ### `reordenarCola`: contents and heap invariant -/

theorem elems_eq_zero {h : AvionHeap} (h0 : h.size = 0) : elems h = 0 := by
  unfold elems elemsF
  rw [h0]
  rfl

theorem reordenarColaAux_elems (fuel : Nat) :
    ∀ (estado : Int) (cola nueva : AvionHeap), cola.size ≤ fuel →
      elems (reordenarColaAux fuel estado cola nueva) =
        elems nueva + (elems cola).map
          (fun a => { a with prioridad := calcularPrioridad estado a }) := by
  induction fuel with
  | zero =>
    intro estado cola nueva hsz
    have h0 : cola.size = 0 := by omega
    show elems nueva = _
    rw [elems_eq_zero h0]
    simp
  | succ fuel ih =>
    intro estado cola nueva hsz
    unfold reordenarColaAux
    cases hp : heapPop cola with
    | none =>
      rw [elems_eq_zero (heapPop_none.mp hp)]
      simp
    | some pr =>
      obtain ⟨avion, cola'⟩ := pr
      rw [ih _ _ _ (by have := heapPop_size hp; omega)]
      rw [heapPush_elems, heapPop_elems hp]
      simp only [Multiset.map_cons]
      rw [Multiset.cons_add, Multiset.add_cons]

theorem reordenarCola_elems (estado : Int) (cola : AvionHeap) :
    elems (reordenarCola estado cola) =
      (elems cola).map (fun a => { a with prioridad := calcularPrioridad estado a }) := by
  unfold reordenarCola
  rw [reordenarColaAux_elems _ _ _ _ (le_refl _)]
  rw [show elems colaVacia = 0 from rfl, zero_add]

theorem reordenarColaAux_isHeap (fuel : Nat) :
    ∀ (estado : Int) (cola nueva : AvionHeap), IsHeap nueva →
      IsHeap (reordenarColaAux fuel estado cola nueva) := by
  induction fuel with
  | zero => intro _ _ _ hn; exact hn
  | succ fuel ih =>
    intro estado cola nueva hn
    unfold reordenarColaAux
    cases hp : heapPop cola with
    | none => exact hn
    | some pr =>
      obtain ⟨avion, cola'⟩ := pr
      exact ih _ _ _ (heapPush_isHeap hn _)

theorem reordenarCola_isHeap (estado : Int) (cola : AvionHeap) :
    IsHeap (reordenarCola estado cola) :=
  reordenarColaAux_isHeap _ _ _ _ colaVacia_isHeap

/-! ### Dispatcher lemmas -/

theorem pasoDispatcher_espera_of_detener {s : Sistema} (h : s.detenerProceso = true) :
    pasoDispatcher s = (s, Evento.espera) := by
  unfold pasoDispatcher
  rw [if_pos h]

/-- Step inversion: an iteration either sleeps and changes nothing, or pops
the root and requeues it (exhaustion) or dispatches it. -/
theorem pasoDispatcher_cases (s : Sistema) :
    pasoDispatcher s = (s, Evento.espera) ∨
    (∃ a cola', heapPop s.colaAviones = some (a, cola') ∧
      (pasoDispatcher s = ({ s with colaAviones := heapPush cola' a, detenerProceso := true },
          Evento.agotado a) ∨
       pasoDispatcher s = ({ s with colaAviones := cola' }, Evento.despachado a))) := by
  unfold pasoDispatcher
  split
  · exact Or.inl rfl
  · split
    · exact Or.inl rfl
    · split
      · exact Or.inl rfl
      · next avion cola' heq =>
        refine Or.inr ⟨avion, cola', heq, ?_⟩
        split
        · exact Or.inl rfl
        · exact Or.inr rfl

theorem trazaPops_detener {s : Sistema} (h : s.detenerProceso = true) :
    ∀ n, trazaPops n s = [] := by
  intro n
  induction n with
  | zero => rfl
  | succ n ih =>
    unfold trazaPops
    rw [pasoDispatcher_espera_of_detener h]
    exact ih

theorem trazaPops_succ_espera {s s' : Sistema}
    (h : pasoDispatcher s = (s', Evento.espera)) (n : Nat) :
    trazaPops (n+1) s = trazaPops n s' := by
  have hdef : trazaPops (n+1) s =
      (match pasoDispatcher s with
        | (t, Evento.espera) => trazaPops n t
        | (t, Evento.agotado a) => a :: trazaPops n t
        | (t, Evento.despachado a) => a :: trazaPops n t) := rfl
  rw [hdef, h]

theorem trazaPops_succ_agotado {s s' : Sistema} {a : Avion}
    (h : pasoDispatcher s = (s', Evento.agotado a)) (n : Nat) :
    trazaPops (n+1) s = a :: trazaPops n s' := by
  have hdef : trazaPops (n+1) s =
      (match pasoDispatcher s with
        | (t, Evento.espera) => trazaPops n t
        | (t, Evento.agotado b) => b :: trazaPops n t
        | (t, Evento.despachado b) => b :: trazaPops n t) := rfl
  rw [hdef, h]

theorem trazaPops_succ_despachado {s s' : Sistema} {a : Avion}
    (h : pasoDispatcher s = (s', Evento.despachado a)) (n : Nat) :
    trazaPops (n+1) s = a :: trazaPops n s' := by
  have hdef : trazaPops (n+1) s =
      (match pasoDispatcher s with
        | (t, Evento.espera) => trazaPops n t
        | (t, Evento.agotado b) => b :: trazaPops n t
        | (t, Evento.despachado b) => b :: trazaPops n t) := rfl
  rw [hdef, h]

/-- Every aircraft the dispatcher pops was in the queue at the start of the
span. -/
theorem trazaPops_mem {n : Nat} :
    ∀ {s : Sistema} {a : Avion}, a ∈ trazaPops n s → a ∈ elems s.colaAviones := by
  induction n with
  | zero =>
    intro s a h
    exact absurd h (List.not_mem_nil a)
  | succ n ih =>
    intro s a h
    rcases pasoDispatcher_cases s with heq | ⟨b, cola', hp, heq | heq⟩
    · rw [trazaPops_succ_espera heq] at h
      exact ih h
    · rw [trazaPops_succ_agotado heq] at h
      rcases List.mem_cons.mp h with rfl | h2
      · rw [heapPop_elems hp]
        exact Multiset.mem_cons_self _ _
      · have h3 : a ∈ elems (heapPush cola' b) := ih h2
        rw [heapPush_elems] at h3
        rw [heapPop_elems hp]
        rcases Multiset.mem_cons.mp h3 with rfl | h4
        · exact Multiset.mem_cons_self _ _
        · exact Multiset.mem_cons_of_mem h4
    · rw [trazaPops_succ_despachado heq] at h
      rcases List.mem_cons.mp h with rfl | h2
      · rw [heapPop_elems hp]
        exact Multiset.mem_cons_self _ _
      · have h3 : a ∈ elems cola' := ih h2
        rw [heapPop_elems hp]
        exact Multiset.mem_cons_of_mem h3

/-- Within one uninterrupted span (no `setState` in between), the popped
aircraft come out in non-increasing priority order. -/
theorem trazaPops_sorted {n : Nat} :
    ∀ {s : Sistema}, IsHeap s.colaAviones →
      List.Pairwise (fun a b => b.prioridad ≤ a.prioridad) (trazaPops n s) := by
  induction n with
  | zero =>
    intro s _
    exact List.Pairwise.nil
  | succ n ih =>
    intro s hh
    rcases pasoDispatcher_cases s with heq | ⟨b, cola', hp, heq | heq⟩
    · rw [trazaPops_succ_espera heq]
      exact ih hh
    · rw [trazaPops_succ_agotado heq, trazaPops_detener rfl n]
      exact List.pairwise_singleton _ _
    · rw [trazaPops_succ_despachado heq]
      refine List.pairwise_cons.mpr ⟨?_, ih (heapPop_isHeap hp hh)⟩
      intro x hx
      have hmem := trazaPops_mem hx
      have hx2 : x ∈ elems s.colaAviones := by
        rw [heapPop_elems hp]
        exact Multiset.mem_cons_of_mem hmem
      exact heapPop_max hp hh x hx2

/-! ### The three branches of `actualizarEstado` -/

theorem actualizarEstado_retener {s : Sistema} {e : Int} (h : e = 7 ∨ e = 8) :
    actualizarEstado s e =
      (s, ["Estado 7 u 8 recibido, se mantiene el estado actual: " ++ toString s.estadoActual]) := by
  unfold actualizarEstado
  rw [if_pos h]

theorem actualizarEstado_habilitado {s : Sistema} {e : Int} (h7 : ¬(e = 7 ∨ e = 8))
    (h : 1 ≤ e ∧ e ≤ 6) :
    actualizarEstado s e =
      ({ estadoActual := e, colaAviones := reordenarCola e s.colaAviones,
         procesar := true, detenerProceso := false },
       ["Estado actualizado a: " ++ toString e ++ " "]) := by
  unfold actualizarEstado
  rw [if_neg h7]
  simp only [decide_eq_true h, if_true]

theorem actualizarEstado_deshabilitado {s : Sistema} {e : Int} (h7 : ¬(e = 7 ∨ e = 8))
    (h : ¬(1 ≤ e ∧ e ≤ 6)) :
    actualizarEstado s e =
      ({ estadoActual := e, colaAviones := s.colaAviones,
         procesar := false, detenerProceso := false },
       ["Estado actualizado a: " ++ toString e ++ " "]) := by
  unfold actualizarEstado
  rw [if_neg h7]
  simp only [decide_eq_false h, Bool.false_eq_true, if_false]

/-- The priority rule only reads the category, never the priority field. -/
theorem calcularPrioridad_ignora_prioridad (e : Int) (a : Avion) (p : Int) :
    calcularPrioridad e { a with prioridad := p } = calcularPrioridad e a := rfl

/-! ### Claims -/

/-- C4: for state codes 7 and 8, `setState` leaves `currentState`,
`processingEnabled`, `ExhaustionFlag` and every aircraft's priority
unchanged (the entire shared state is returned untouched) and reports to
the caller that the current state is retained. -/
theorem claim_C4 (s : Sistema) (e : Int) (he : e = 7 ∨ e = 8) :
    (actualizarEstado s e).1 = s ∧
    (actualizarEstado s e).2 =
      ["Estado 7 u 8 recibido, se mantiene el estado actual: " ++ toString s.estadoActual] := by
  rw [actualizarEstado_retener he]
  exact ⟨rfl, rfl⟩

theorem claim_C4_witness :
    (actualizarEstado ⟨3, colaVacia, true, false⟩ 7).1 = ⟨3, colaVacia, true, false⟩ ∧
    (actualizarEstado ⟨3, colaVacia, true, false⟩ 7).2 =
      ["Estado 7 u 8 recibido, se mantiene el estado actual: " ++ toString (3 : Int)] :=
  claim_C4 ⟨3, colaVacia, true, false⟩ 7 (Or.inl rfl)

/-- C7: an integer code outside the recognized set {0,...,9} is stored
verbatim as the current state by `setState`, the priority rule then gives
every aircraft priority 0, and the eligibility rule accepts every
category. -/
theorem claim_C7 (s : Sistema) (e : Int) (he : e < 0 ∨ 9 < e) :
    (actualizarEstado s e).1.estadoActual = e ∧
    (∀ a : Avion, calcularPrioridad e a = 0) ∧
    (∀ a : Avion, esCategoriaValida e a = true) := by
  refine ⟨?_, ?_, ?_⟩
  · rw [actualizarEstado_deshabilitado (by omega) (by omega)]
  · intro a
    unfold calcularPrioridad
    rw [if_neg (by omega), if_neg (by omega), if_neg (by omega), if_neg (by omega),
        if_neg (by omega), if_neg (by omega)]
  · intro a
    unfold esCategoriaValida
    rw [if_neg (by omega), if_neg (by omega), if_neg (by omega)]

theorem claim_C7_witness :
    (actualizarEstado ⟨0, colaVacia, false, false⟩ 42).1.estadoActual = 42 ∧
    (∀ a : Avion, calcularPrioridad 42 a = 0) ∧
    (∀ a : Avion, esCategoriaValida 42 a = true) :=
  claim_C7 ⟨0, colaVacia, false, false⟩ 42 (Or.inr (by decide))

/-- C9 (counterexample): the dispatcher's simulated occupancy duration is
`rand.Intn(4)` time units; the draw 3 yields duration 3, which is outside
the claimed half-open range [0, 3). -/
theorem claim_C9_cex : usarPistaDuracion 3 = 3 ∧ ¬(usarPistaDuracion 3 < 3) := by
  decide

/-- C9 (amended): for every pseudo-random draw, the simulated occupancy
duration lies within the half-open range [0, 4) time units. -/
theorem claim_C9 (r : Nat) : usarPistaDuracion r < 4 :=
  Nat.mod_lt r (by omega)

/-- C3: in every reachable state of the runway pool, the number of held
slots is between 0 and 3 inclusive, and held slots plus buffered tokens
always equal the fixed capacity 3. -/
theorem claim_C3 (p : PistaPool) (hp : PistaAlcanzable p) :
    0 ≤ p.enUso ∧ p.enUso ≤ 3 ∧ p.disponibles + p.enUso = 3 := by
  have hsum : p.disponibles + p.enUso = 3 := by
    induction hp with
    | inicial => rfl
    | paso hq hstep ih =>
      cases hstep with
      | adquirir hq0 =>
        dsimp only
        omega
      | liberar hq0 =>
        dsimp only
        omega
  exact ⟨Nat.zero_le _, by omega, hsum⟩

theorem claim_C3_witness :
    0 ≤ (⟨2, 1⟩ : PistaPool).enUso ∧ (⟨2, 1⟩ : PistaPool).enUso ≤ 3 ∧
      (⟨2, 1⟩ : PistaPool).disponibles + (⟨2, 1⟩ : PistaPool).enUso = 3 :=
  claim_C3 ⟨2, 1⟩
    (PistaAlcanzable.paso PistaAlcanzable.inicial
      (PasoPista.adquirir pistaInicial (by decide)))

/-- Direct evaluation of the exhaustion iteration of `procesarCola`. -/
theorem pasoDispatcher_agotado {s : Sistema} {a : Avion} {cola' : AvionHeap}
    (hflag : s.detenerProceso = false) (hproc : s.procesar = true)
    (hpop : heapPop s.colaAviones = some (a, cola'))
    (hcond : 1 ≤ s.estadoActual ∧ s.estadoActual ≤ 3 ∧
      esCategoriaValida s.estadoActual a = false) :
    pasoDispatcher s =
      ({ s with colaAviones := heapPush cola' a, detenerProceso := true },
       Evento.agotado a) := by
  have hne := (heapPop_some hpop).1
  have hguard : ¬(s.procesar = false ∨ s.colaAviones.size = 0) := by
    rw [hproc]
    simp [hne]
  unfold pasoDispatcher
  rw [hflag, if_neg Bool.false_ne_true, if_neg hguard, hpop]
  exact if_pos hcond

/-- C2: with an exclusive state 1..3 active, popping an aircraft of the
wrong category requeues it (queue size and contents unchanged net of that
iteration), sets the exhaustion flag, no aircraft is popped afterwards
while the flag holds, and any `setState` call with a code other than 7/8
clears the flag. -/
theorem claim_C2 (s : Sistema)
    (hs1 : 1 ≤ s.estadoActual) (hs3 : s.estadoActual ≤ 3)
    (hflag : s.detenerProceso = false) (hproc : s.procesar = true)
    (hne : s.colaAviones.size ≠ 0)
    (hbad : esCategoriaValida s.estadoActual (s.colaAviones.get 0) = false) :
    (pasoDispatcher s).2 = Evento.agotado (s.colaAviones.get 0) ∧
    (pasoDispatcher s).1.colaAviones.size = s.colaAviones.size ∧
    (pasoDispatcher s).1.detenerProceso = true ∧
    elems (pasoDispatcher s).1.colaAviones = elems s.colaAviones ∧
    (∀ m, trazaPops m (pasoDispatcher s).1 = []) ∧
    (∀ t : Sistema, ∀ e : Int, ¬(e = 7 ∨ e = 8) →
      (actualizarEstado t e).1.detenerProceso = false) := by
  have hpop : heapPop s.colaAviones = some (s.colaAviones.get 0,
      ⟨s.colaAviones.size - 1,
        down (swapF s.colaAviones.get 0 (s.colaAviones.size - 1)) 0
          (s.colaAviones.size - 1)⟩) := by
    unfold heapPop
    rw [if_neg hne]
  have hstep := pasoDispatcher_agotado hflag hproc hpop ⟨hs1, hs3, hbad⟩
  rw [hstep]
  refine ⟨rfl, ?_, rfl, ?_, ?_, ?_⟩
  · show s.colaAviones.size - 1 + 1 = s.colaAviones.size
    omega
  · show elems (heapPush _ _) = _
    rw [heapPush_elems, ← heapPop_elems hpop]
  · intro m
    exact trazaPops_detener rfl m
  · intro t e h78
    by_cases hp : 1 ≤ e ∧ e ≤ 6
    · rw [actualizarEstado_habilitado h78 hp]
    · rw [actualizarEstado_deshabilitado h78 hp]

/-- Concrete category-A test aircraft (in the style of `init`, line 67). -/
def avionA : Avion := ⟨1, "A", 120, 0⟩

/-- Concrete category-B test aircraft (in the style of `init`, line 68). -/
def avionB : Avion := ⟨11, "B", 60, 0⟩

/-- Concrete category-C test aircraft (in the style of `init`, line 69). -/
def avionC : Avion := ⟨21, "C", 20, 0⟩

/-- A system in exclusive state 1 whose queue head is a category-B
aircraft: the exhaustion situation. -/
def sistemaC2 : Sistema := ⟨1, heapPush colaVacia avionB, true, false⟩

theorem claim_C2_witness :
    (pasoDispatcher sistemaC2).2 = Evento.agotado (sistemaC2.colaAviones.get 0) ∧
    (pasoDispatcher sistemaC2).1.colaAviones.size = sistemaC2.colaAviones.size ∧
    (pasoDispatcher sistemaC2).1.detenerProceso = true ∧
    elems (pasoDispatcher sistemaC2).1.colaAviones = elems sistemaC2.colaAviones ∧
    (∀ m, trazaPops m (pasoDispatcher sistemaC2).1 = []) ∧
    (∀ t : Sistema, ∀ e : Int, ¬(e = 7 ∨ e = 8) →
      (actualizarEstado t e).1.detenerProceso = false) :=
  claim_C2 sistemaC2 (by decide) (by decide) rfl rfl (by decide) (by decide)

/-- C1: after `setState(s)` with `s ∈ {1,...,6}`, every aircraft in the
queue has priority exactly `calcPriority(aircraft, s)`, and `calcPriority`
agrees with the spec's table: priority 1 for the matching category in
states 1/2/3, priority 2 for it in states 4/5/6, and 0 for every
non-matching aircraft. -/
theorem claim_C1 (sys : Sistema) (s : Int) (hs1 : 1 ≤ s) (hs6 : s ≤ 6)
    (a : Avion) (ha : a ∈ elems (actualizarEstado sys s).1.colaAviones) :
    a.prioridad = calcularPrioridad s a ∧
    calcularPrioridad s a =
      (if a.categoria = categoriaObjetivo s then if s ≤ 3 then 1 else 2 else 0) := by
  constructor
  · rw [actualizarEstado_habilitado (by omega) ⟨hs1, hs6⟩] at ha
    have ha2 : a ∈ elems (reordenarCola s sys.colaAviones) := ha
    rw [reordenarCola_elems] at ha2
    obtain ⟨b, hb, rfl⟩ := Multiset.mem_map.mp ha2
    exact (calcularPrioridad_ignora_prioridad s b (calcularPrioridad s b)).symm
  · have hs : s = 1 ∨ s = 2 ∨ s = 3 ∨ s = 4 ∨ s = 5 ∨ s = 6 := by omega
    unfold calcularPrioridad categoriaObjetivo
    rcases hs with rfl | rfl | rfl | rfl | rfl | rfl <;> simp

/-- A fresh system with one aircraft of each category, as after startup. -/
def sistemaC1 : Sistema :=
  ⟨0, heapPush (heapPush (heapPush colaVacia avionA) avionB) avionC, false, false⟩

theorem claim_C1_witness :
    ({ avionA with prioridad := 1 } : Avion).prioridad =
        calcularPrioridad 1 { avionA with prioridad := 1 } ∧
      calcularPrioridad 1 { avionA with prioridad := 1 } =
        (if ({ avionA with prioridad := 1 } : Avion).categoria = categoriaObjetivo 1 then
          if (1 : Int) ≤ 3 then 1 else 2 else 0) :=
  claim_C1 sistemaC1 1 (by decide) (by decide) { avionA with prioridad := 1 } (by decide)

/-- C6: `setState` is idempotent on priorities: after two consecutive calls
with the same code, the queue contents (hence every aircraft's priority)
equal those after the first call. -/
theorem claim_C6 (s : Sistema) (e : Int) :
    elems ((actualizarEstado (actualizarEstado s e).1 e).1.colaAviones) =
      elems ((actualizarEstado s e).1.colaAviones) := by
  by_cases h78 : e = 7 ∨ e = 8
  · have h1 : (actualizarEstado s e).1 = s := by
      rw [actualizarEstado_retener h78]
    rw [h1, h1]
  · by_cases hp : 1 ≤ e ∧ e ≤ 6
    · have h1 : (actualizarEstado s e).1 =
        { estadoActual := e, colaAviones := reordenarCola e s.colaAviones,
          procesar := true, detenerProceso := false } := by
        rw [actualizarEstado_habilitado h78 hp]
      rw [h1, actualizarEstado_habilitado h78 hp]
      show elems (reordenarCola e (reordenarCola e s.colaAviones)) =
        elems (reordenarCola e s.colaAviones)
      rw [reordenarCola_elems, reordenarCola_elems, Multiset.map_map]
      refine Multiset.map_congr rfl ?_
      intro b hb
      show ({ b with prioridad :=
          calcularPrioridad e { b with prioridad := calcularPrioridad e b } } : Avion) =
        { b with prioridad := calcularPrioridad e b }
      rw [calcularPrioridad_ignora_prioridad]
    · have h1 : (actualizarEstado s e).1 =
        { estadoActual := e, colaAviones := s.colaAviones,
          procesar := false, detenerProceso := false } := by
        rw [actualizarEstado_deshabilitado h78 hp]
      rw [h1, actualizarEstado_deshabilitado h78 hp]

/-- C5: within any uninterrupted span between two state transitions (any
number of dispatcher iterations with no `setState` call in between), the
aircraft the dispatcher pops come out in non-increasing priority order;
in particular, right after `setState(4)` every category-A aircraft
(priority 2) is dequeued before any category-B or category-C aircraft
(priority 0). -/
theorem claim_C5 (n : Nat) :
    (∀ s : Sistema, IsHeap s.colaAviones →
      List.Pairwise (fun a b => b.prioridad ≤ a.prioridad) (trazaPops n s)) ∧
    (∀ s0 : Sistema,
      List.Pairwise (fun a b => b.categoria = "A" → a.categoria = "A")
        (trazaPops n (actualizarEstado s0 4).1)) := by
  constructor
  · intro s hh
    exact trazaPops_sorted hh
  · intro s0
    have h1 : (actualizarEstado s0 4).1 =
        { estadoActual := 4, colaAviones := reordenarCola 4 s0.colaAviones,
          procesar := true, detenerProceso := false } := by
      rw [actualizarEstado_habilitado (by omega) (by omega)]
    rw [h1]
    have hh : IsHeap (reordenarCola 4 s0.colaAviones) := reordenarCola_isHeap _ _
    have hsorted :
        List.Pairwise (fun a b => b.prioridad ≤ a.prioridad)
          (trazaPops n ⟨4, reordenarCola 4 s0.colaAviones, true, false⟩) :=
      trazaPops_sorted hh
    have hpri : ∀ x ∈ trazaPops n (⟨4, reordenarCola 4 s0.colaAviones, true, false⟩ : Sistema),
        x.prioridad = calcularPrioridad 4 x := by
      intro x hx
      have hmem : x ∈ elems (reordenarCola 4 s0.colaAviones) := trazaPops_mem hx
      rw [reordenarCola_elems] at hmem
      obtain ⟨y, hy, rfl⟩ := Multiset.mem_map.mp hmem
      exact (calcularPrioridad_ignora_prioridad 4 y _).symm
    refine hsorted.imp_of_mem ?_
    intro a b hamem hbmem hab hbA
    have hpa := hpri a hamem
    have hpb := hpri b hbmem
    by_cases haA : a.categoria = "A"
    · exact haA
    · exfalso
      simp only [calcularPrioridad, haA] at hpa
      simp only [calcularPrioridad, hbA] at hpb
      simp only [if_false, if_true] at hpa hpb
      omega

/-- A system in priority-boost state 4 with a small mixed queue. -/
def sistemaC5 : Sistema := ⟨4, heapPush (heapPush colaVacia avionA) avionB, true, false⟩

theorem claim_C5_witness :
    List.Pairwise (fun a b => b.prioridad ≤ a.prioridad) (trazaPops 3 sistemaC5) ∧
    List.Pairwise (fun a b => b.categoria = "A" → a.categoria = "A")
      (trazaPops 3 (actualizarEstado sistemaC1 4).1) :=
  ⟨(claim_C5 3).1 sistemaC5 (by decide), (claim_C5 3).2 sistemaC1⟩

/-- The description table has an entry exactly for the codes 0..6 and 9. -/
theorem descripcionEstado_emite (e : Int) :
    descripcionEstado e ≠ [] ↔
      (e = 0 ∨ e = 1 ∨ e = 2 ∨ e = 3 ∨ e = 4 ∨ e = 5 ∨ e = 6 ∨ e = 9) := by
  unfold descripcionEstado descripciones
  split_ifs <;> simp_all

/-- C8 (counterexample): the non-integer raw line " hola " is emitted as
the trimmed text "hola", not verbatim as " hola ". -/
theorem claim_C8_cex :
    atoi (trimSpace " hola ") = none ∧
    (leerLinea sistemaC1 " hola ").2 = ["hola"] ∧
    (leerLinea sistemaC1 " hola ").2 ≠ [" hola "] := by
  decide

/-- C8 (amended): for every incoming raw line, if the trimmed line parses
as an integer then `setState` runs with that integer and the state
description is emitted exactly when the code is in the table {0,...,6,9};
if it does not parse, the trimmed line is emitted as free text and the
state is unchanged (no error is raised). -/
theorem claim_C8 (s : Sistema) (raw : String) :
    (∀ e : Int, atoi (trimSpace raw) = some e →
      leerLinea s raw =
        ((actualizarEstado s e).1, (actualizarEstado s e).2 ++ descripcionEstado e) ∧
      (descripcionEstado e ≠ [] ↔
        (e = 0 ∨ e = 1 ∨ e = 2 ∨ e = 3 ∨ e = 4 ∨ e = 5 ∨ e = 6 ∨ e = 9))) ∧
    (atoi (trimSpace raw) = none → leerLinea s raw = (s, [trimSpace raw])) := by
  constructor
  · intro e he
    refine ⟨?_, descripcionEstado_emite e⟩
    simp only [leerLinea, he]
  · intro hnone
    simp only [leerLinea, hnone]

theorem claim_C8_witness :
    (leerLinea sistemaC2 "5" =
        ((actualizarEstado sistemaC2 5).1,
          (actualizarEstado sistemaC2 5).2 ++ descripcionEstado 5) ∧
      (descripcionEstado 5 ≠ [] ↔
        ((5 : Int) = 0 ∨ (5 : Int) = 1 ∨ (5 : Int) = 2 ∨ (5 : Int) = 3 ∨
          (5 : Int) = 4 ∨ (5 : Int) = 5 ∨ (5 : Int) = 6 ∨ (5 : Int) = 9))) ∧
    leerLinea sistemaC2 "hola" = (sistemaC2, [trimSpace "hola"]) :=
  ⟨(claim_C8 sistemaC2 "5").1 5 (by decide), (claim_C8 sistemaC2 "hola").2 (by decide)⟩

/-! ### Trimming lemmas for the message reader -/

/-- After `dropWhile`, the head (if any) is not whitespace. -/
theorem dropWhile_esEspacio_head (l : List Char) :
    ∀ c, (l.dropWhile esEspacio).head? = some c → esEspacio c = false := by
  induction l with
  | nil =>
    intro c h
    simp [List.dropWhile] at h
  | cons a t ih =>
    intro c h
    rw [List.dropWhile_cons] at h
    by_cases ha : esEspacio a = true
    · rw [if_pos ha] at h
      exact ih c h
    · rw [if_neg ha] at h
      rw [List.head?_cons, Option.some.injEq] at h
      subst h
      cases hae : esEspacio a
      · rfl
      · exact absurd hae ha

/-- A list whose head is not whitespace is unchanged by `dropWhile`. -/
theorem dropWhile_eq_self_of_head (l : List Char)
    (h : ∀ c, l.head? = some c → esEspacio c = false) :
    l.dropWhile esEspacio = l := by
  cases l with
  | nil => rfl
  | cons a t =>
    rw [List.dropWhile_cons, h a rfl, if_neg Bool.false_ne_true]

/-- `dropWhile` keeps the last element when some element survives. -/
theorem dropWhile_getLast? (l : List Char)
    (hne : l.dropWhile esEspacio ≠ []) :
    (l.dropWhile esEspacio).getLast? = l.getLast? := by
  induction l with
  | nil => exact absurd rfl hne
  | cons a t ih =>
    rw [List.dropWhile_cons]
    by_cases ha : esEspacio a = true
    · rw [List.dropWhile_cons, if_pos ha] at hne
      rw [if_pos ha, ih hne]
      cases t with
      | nil => exact absurd rfl hne
      | cons b t' => rw [List.getLast?_cons_cons]
    · rw [if_neg ha]

/-- `strings.TrimSpace` is idempotent. -/
theorem trimSpace_idem (s : String) : trimSpace (trimSpace s) = trimSpace s := by
  have key : ∀ l : List Char,
      ((((((l.dropWhile esEspacio).reverse.dropWhile esEspacio).reverse).dropWhile
          esEspacio).reverse.dropWhile esEspacio).reverse) =
        ((l.dropWhile esEspacio).reverse.dropWhile esEspacio).reverse := by
    intro l
    by_cases hM : (l.dropWhile esEspacio).reverse.dropWhile esEspacio = []
    · rw [hM]
      simp
    · have h1 : ∀ c,
          (((l.dropWhile esEspacio).reverse.dropWhile esEspacio).reverse).head? = some c →
            esEspacio c = false := by
        intro c hc
        rw [List.head?_reverse] at hc
        rw [dropWhile_getLast? _ hM] at hc
        rw [List.getLast?_reverse] at hc
        exact dropWhile_esEspacio_head l c hc
      rw [dropWhile_eq_self_of_head _ h1, List.reverse_reverse,
          dropWhile_eq_self_of_head _
            (fun c hc => dropWhile_esEspacio_head ((l.dropWhile esEspacio).reverse) c hc)]
  exact congrArg String.mk (key s.data)

/-- C10: the reader trims leading and trailing whitespace before the
integer-parse test: every raw line is processed exactly like its trimmed
form, and the lines " 5 " and "5\n" are treated as state code 5 (the state
machine runs with code 5) rather than being emitted as free text. -/
theorem claim_C10 :
    (∀ (s : Sistema) (raw : String), leerLinea s raw = leerLinea s (trimSpace raw)) ∧
    (∀ s : Sistema, leerLinea s " 5 " = leerLinea s "5" ∧
      (leerLinea s " 5 ").1.estadoActual = 5) ∧
    (∀ s : Sistema, leerLinea s "5\n" = leerLinea s "5" ∧
      (leerLinea s "5\n").1.estadoActual = 5) := by
  have hab : ∀ (s : Sistema) (raw : String) (e : Int), atoi (trimSpace raw) = some e →
      leerLinea s raw =
        ((actualizarEstado s e).1, (actualizarEstado s e).2 ++ descripcionEstado e) := by
    intro s raw e he
    simp only [leerLinea, he]
  refine ⟨?_, ?_, ?_⟩
  · intro s raw
    simp only [leerLinea, trimSpace_idem]
  · intro s
    have h1 := hab s " 5 " 5 (by decide)
    have h2 := hab s "5" 5 (by decide)
    refine ⟨h1.trans h2.symm, ?_⟩
    rw [h1]
    show (actualizarEstado s 5).1.estadoActual = 5
    rw [actualizarEstado_habilitado (by omega) (by omega)]
  · intro s
    have h1 := hab s "5\n" 5 (by decide)
    have h2 := hab s "5" 5 (by decide)
    refine ⟨h1.trans h2.symm, ?_⟩
    rw [h1]
    show (actualizarEstado s 5).1.estadoActual = 5
    rw [actualizarEstado_habilitado (by omega) (by omega)]
